import Mathlib

/-!
Verification development for the smart-download daemon core
(queue/worker orchestration engine and post-processing pipeline).

The Go sources are shallowly embedded as Lean definitions:

* `internal/domain/download.go`        → `DownloadStatus`, `DownloadOptions`, `Download`
* `internal/postprocessor/...`         → `FFmpegProcessor`, `GetVideoInfo`,
  `IsWhatsAppCompatible`, `ConvertToWhatsAppMP4`, `ConvertToGIF`, `ClipVideo`,
  `parseTimeToSeconds`, `Process`, `NeedsProcessing`
* `internal/daemon/server.go` (queue)  → `processDownloadRun` (one worker's
  `QueueManager.processDownload`), plus a small-step system `SysStep` for the
  worker-pool semaphore and store
* `internal/repository/sqlite` (rows)  → `StoreWrite`, `applyStoreWrite`
  (`UpdateStatus` / `UpdateOutputPath`)
* `internal/daemon/handlers.go`        → `HandleAdd`

External processes (ffmpeg / ffprobe / yt-dlp) are modelled by an oracle
environment `FFEnv` deciding, per invocation, the probe result and the
success of each ffmpeg run; executed side effects are recorded in an
explicit trace (`FFEff`).  Go library functions used by the source
(`time.ParseDuration`, `strconv.ParseFloat`, `strconv.Atoi`,
`strings.Split`, `filepath.Ext`, ...) are modelled from their Go
implementations.  Numeric values are exact rationals: the float64
rounding performed by Go (and the final "%.3f" rendering, which is
representation only) is abstracted to exact arithmetic.
-/

set_option maxRecDepth 40000

namespace SmartDownload

/-- Decidable equality for Except results, used to evaluate the model on
concrete inputs. -/
instance {α β : Type} [DecidableEq α] [DecidableEq β] :
    DecidableEq (Except α β) := fun a b =>
  match a, b with
  | .ok x, .ok y => decidable_of_iff (x = y) (by simp)
  | .error x, .error y => decidable_of_iff (x = y) (by simp)
  | .ok _, .error _ => isFalse (by simp)
  | .error _, .ok _ => isFalse (by simp)

/-- internal/domain/download.go: the five job statuses. -/
inductive DownloadStatus
  | pending
  | downloading
  | processing
  | completed
  | failed
deriving DecidableEq, Repr

/-- internal/domain/download.go: DownloadOptions, the immutable request-time
configuration bag.  Field names follow the Go struct. -/
structure DownloadOptions where
  resolution : String := ""
  audioOnly : Bool := false
  clipStart : String := ""
  clipEnd : String := ""
  convertToGIF : Bool := false
  gifWidth : Int := 0
  noConvert : Bool := false
deriving DecidableEq, Repr

/-- internal/domain/download.go: the Download record (also the shape of a
store row in internal/repository/sqlite/download.go; `completedAtSet`
models whether the completed_at column is non-NULL). -/
structure Download where
  id : Int := 0
  url : String := ""
  platform : String := ""
  username : String := ""
  status : DownloadStatus := .pending
  outputPath : String := ""
  options : DownloadOptions := {}
  completedAtSet : Bool := false
  errorMessage : String := ""
deriving DecidableEq, Repr

/-- postprocessor.VideoInfo as filled in by GetVideoInfo from ffprobe
output (fields not used by any decision are omitted). -/
structure VideoInfo where
  width : Int := 0
  height : Int := 0
  videoCodec : String := ""
  audioCodec : String := ""
  hasVideo : Bool := false
  hasAudio : Bool := false
deriving DecidableEq, Repr

/-- Oracle for the external ffprobe/ffmpeg processes: the probe result per
path (none = ffprobe failure) and the success of each kind of ffmpeg run,
keyed by the run's output path. -/
structure FFEnv where
  probe : String → Option VideoInfo
  clipRunOk : String → Bool
  paletteRunOk : String → Bool
  gifRunOk : String → Bool
  convertRunOk : String → Bool

/-- Side effects the postprocessor performs, in execution order. -/
inductive FFEff
  | probeFile (p : String)
  | runClip (inp outp : String)
  | runPalette (inp pal : String)
  | runGif (inp outp : String)
  | runConvert (inp outp : String)
  | removeFile (p : String)
deriving DecidableEq, Repr

/-- path/filepath Ext: the suffix beginning at the final dot in the final
slash-separated element; empty when there is no dot. -/
def extFromRev : List Char → List Char → Option String
  | [], _ => none
  | c :: rest, acc =>
    if c = '/' then none
    else if c = '.' then some (String.mk (c :: acc))
    else extFromRev rest (c :: acc)

/-- filepath.Ext. -/
def filepathExt (p : String) : String :=
  (extFromRev p.data.reverse []).getD ""

/-- strings.TrimSuffix. -/
def trimSuffix (s suf : String) : String :=
  if suf.data.isSuffixOf s.data then
    String.mk (s.data.take (s.data.length - suf.data.length))
  else s

/-- strings.HasSuffix. -/
def hasSuffix (s suf : String) : Bool :=
  suf.data.isSuffixOf s.data

/-- strings.ReplaceAll with single-character arguments, as used in
ClipVideo for ":" → "-". -/
def replaceColons (s : String) : String :=
  String.mk (s.data.map fun c => if c = ':' then '-' else c)

/-- FFmpegProcessor (internal/postprocessor): carries the temp directory. -/
structure FFmpegProcessor where
  tempDir : String

/-- GetVideoInfo: runs ffprobe on the input; in the model the parsed
`VideoInfo` is given directly by the environment oracle (the JSON decoding
of a successful probe is below the interface boundary). -/
def GetVideoInfo (env : FFEnv) (inputPath : String) :
    Except String VideoInfo × List FFEff :=
  match env.probe inputPath with
  | some info => (.ok info, [.probeFile inputPath])
  | none => (.error "ffprobe failed", [.probeFile inputPath])

/-- IsWhatsAppCompatible: compatible when the video codec is h264, the
audio codec (if an audio stream exists) is aac, and the height is at most
1080; otherwise returns false plus the joined reasons. -/
def IsWhatsAppCompatible (env : FFEnv) (inputPath : String) :
    Except String (Bool × String) × List FFEff :=
  match GetVideoInfo env inputPath with
  | (.error e, t) => (.error e, t)
  | (.ok info, t) =>
    let reasons : List String :=
      (if info.videoCodec ≠ "h264" then
        ["video codec is " ++ info.videoCodec ++ " (needs h264)"] else []) ++
      (if info.hasAudio ∧ info.audioCodec ≠ "aac" then
        ["audio codec is " ++ info.audioCodec ++ " (needs aac)"] else []) ++
      (if info.height > 1080 then
        ["resolution is " ++ toString info.width ++ "x" ++ toString info.height ++
          " (max 1920x1080)"] else [])
    if reasons.length > 0 then
      (.ok (false, String.intercalate "; " reasons), t)
    else
      (.ok (true, ""), t)

/-- ConvertToWhatsAppMP4: computes the `_whatsapp.mp4` output path, probes
the input (this probe only selects ffmpeg flags, which are below the
interface boundary, but its failure aborts), then runs ffmpeg. -/
def ConvertToWhatsAppMP4 (env : FFEnv) (inputPath : String) :
    Except String String × List FFEff :=
  let ext := filepathExt inputPath
  let base := trimSuffix inputPath ext
  let outputPath := base ++ "_whatsapp.mp4"
  match GetVideoInfo env inputPath with
  | (.error e, t) => (.error ("get video info: " ++ e), t)
  | (.ok _info, t) =>
    if env.convertRunOk outputPath then
      (.ok outputPath, t ++ [.runConvert inputPath outputPath])
    else
      (.error "ffmpeg failed", t ++ [.runConvert inputPath outputPath])

/-- ConvertToGIF: two-pass palette conversion to `base ++ ".gif"`; the
temporary palette file is removed on every exit path (deferred remove).
`startTime`/`duration` only add ffmpeg arguments, and every caller in the
repository passes them empty. -/
def ConvertToGIF (f : FFmpegProcessor) (env : FFEnv) (inputPath : String)
    (_width : Int) (_startTime _duration : String) :
    Except String String × List FFEff :=
  let ext := filepathExt inputPath
  let base := trimSuffix inputPath ext
  let outputPath := base ++ ".gif"
  let palettePath := f.tempDir ++ "/palette.png"
  if env.paletteRunOk palettePath then
    if env.gifRunOk outputPath then
      (.ok outputPath,
        [.runPalette inputPath palettePath, .runGif inputPath outputPath,
         .removeFile palettePath])
    else
      (.error "generate gif: ffmpeg failed",
        [.runPalette inputPath palettePath, .runGif inputPath outputPath,
         .removeFile palettePath])
  else
    (.error "generate palette: ffmpeg failed",
      [.runPalette inputPath palettePath, .removeFile palettePath])

/-- A value as produced by strconv.ParseFloat.  The finite case keeps the
exact rational value of the literal; the rounding of that value to the
nearest float64 is abstracted away (a range error, which every caller in
this repository treats as a parse failure, is modelled as `none` by
`goParseFloat`). -/
inductive GoFloat
  | finite (q : ℚ)
  | infinite (neg : Bool)
  | nan
deriving DecidableEq, Repr

/-- Optional leading sign, as consumed by ParseDuration / ParseFloat /
ParseInt; returns (isNegative, remainder). -/
def stripSign : List Char → Bool × List Char
  | '-' :: r => (true, r)
  | '+' :: r => (false, r)
  | r => (false, r)

/-- Value of a digit character, hex letters included. -/
def hexDigitVal (c : Char) : ℕ :=
  if c.isDigit then c.toNat - 48 else c.toLower.toNat - 87

/-- Digits to a natural number in the given base. -/
def digitsToNat (b : ℕ) (ds : List Char) : ℕ :=
  ds.foldl (fun a c => a * b + hexDigitVal c) 0

/-- Whether `c` is a hexadecimal letter a-f (either case). -/
def isHexLetter (c : Char) : Bool :=
  'a' ≤ c.toLower && c.toLower ≤ 'f'

/-- strconv.Atoi (= ParseInt base 10 on a 64-bit platform): optional sign,
then a nonempty run of decimal digits, whole string, int64 range. -/
def goAtoi (s : String) : Option ℤ :=
  let (neg, cs) := stripSign s.data
  if cs.isEmpty || !cs.all Char.isDigit then none
  else
    let v : ℤ := if neg then -(digitsToNat 10 cs : ℤ) else (digitsToNat 10 cs : ℤ)
    if -(2 ^ 63) ≤ v ∧ v ≤ 2 ^ 63 - 1 then some v else none

/-- Result of scanning a mantissa in strconv's readFloat: the digits kept
(underscores skipped, dot removed), the number of digits before the dot
when a dot was seen, the unconsumed remainder, and whether an underscore
was seen. -/
structure MantScan where
  digits : List Char
  dotPos : Option ℕ
  rest : List Char
  sawU : Bool
deriving Repr

/-- The mantissa loop of strconv's readFloat: consumes digits of the base,
at most one dot, and underscores (validated later by `underscoreOK`). -/
def scanMantissa (hex : Bool) : List Char → List Char → Option ℕ → Bool → MantScan
  | [], acc, dp, u => ⟨acc.reverse, dp, [], u⟩
  | c :: cs, acc, dp, u =>
    if c = '_' then scanMantissa hex cs acc dp true
    else if c = '.' then
      match dp with
      | some _ => ⟨acc.reverse, dp, c :: cs, u⟩
      | none => scanMantissa hex cs acc (some acc.length) u
    else if c.isDigit || (hex && isHexLetter c) then scanMantissa hex cs (c :: acc) dp u
    else ⟨acc.reverse, dp, c :: cs, u⟩

/-- The exponent-digit loop of readFloat: digits and underscores, stopping
at the first other character. -/
def scanExpDigits : List Char → List Char → Bool → List Char × List Char × Bool
  | [], acc, u => (acc.reverse, [], u)
  | c :: cs, acc, u =>
    if c = '_' then scanExpDigits cs acc true
    else if c.isDigit then scanExpDigits cs (c :: acc) u
    else (acc.reverse, c :: cs, u)

/-- strconv's underscoreOK scan: `saw` is the category of the previous
character ('^' start or base prefix position, '0' digit, '_' underscore,
'!' anything else); hex letters count as digits only in hex mode. -/
def underscoreOKAux (hex : Bool) : List Char → Char → Bool
  | [], saw => saw != '_'
  | c :: cs, saw =>
    if c.isDigit || (hex && isHexLetter c) then underscoreOKAux hex cs '0'
    else if c = '_' then (saw == '0') && underscoreOKAux hex cs '_'
    else (saw != '_') && underscoreOKAux hex cs '!'

/-- strconv's underscoreOK on the full literal: underscores may appear
only between digits or between the 0x prefix and the first digit. -/
def underscoreOK (s : String) : Bool :=
  let cs1 := (stripSign s.data).2
  match cs1 with
  | '0' :: x :: r =>
    if x.toLower = 'x' then underscoreOKAux true r '0'
    else underscoreOKAux false cs1 '^'
  | _ => underscoreOKAux false cs1 '^'

/-- Sum of two rationals through the normalizing constructor `Rat.divInt`
(value-equal to `a + b`; the kernel evaluates this form, unlike the field
operation). -/
def qAdd (a b : ℚ) : ℚ :=
  Rat.divInt (a.num * (b.den : ℤ) + b.num * (a.den : ℤ)) ((a.den : ℤ) * (b.den : ℤ))

/-- Negation of a rational through `Rat.divInt` (value-equal to `-a`). -/
def qNeg (a : ℚ) : ℚ :=
  Rat.divInt (-a.num) (a.den : ℤ)

/-- Exact rational value of a scanned mantissa and exponent,
m · expBase^(e - perDigitExp·fracLen): `base` is the digit base (10 or
16), `expBase` the exponent base (10 or 2), `perDigitExp` the exponent
shift per fractional digit (1 or 4).  Built with `Rat.divInt` and natural
powers so the kernel can evaluate it. -/
def mantValue (base expBase perDigitExp : ℕ) (ds : List Char) (dp : Option ℕ)
    (e : ℤ) : ℚ :=
  let m : ℕ := digitsToNat base ds
  let fracLen : ℕ := ds.length - dp.getD ds.length
  let p : ℤ := e - (perDigitExp * fracLen : ℕ)
  if 0 ≤ p then Rat.divInt ((m : ℤ) * ((expBase ^ p.toNat : ℕ) : ℤ)) 1
  else Rat.divInt (m : ℤ) ((expBase ^ (-p).toNat : ℕ) : ℤ)

/-- Whether an exact literal value rounds to a float64 without a range
error: values at or beyond the overflow rounding boundary 2^1024 - 2^970,
and nonzero values at or below the underflow rounding boundary 2^(-1075),
give ErrRange in Go.  Stated on the reduced numerator/denominator:
2^(-1075) < |q| iff den < |num|·2^1075, and |q| < B iff |num| < den·B. -/
def float64InRange (q : ℚ) : Bool :=
  (q.num == 0 || decide (q.den < q.num.natAbs * 2 ^ 1075)) &&
  decide (q.num.natAbs < q.den * (2 ^ 1024 - 2 ^ 970))

/-- Final acceptance for a scanned float literal: the underscore check
when underscores occurred, the sign, and the float64 range check (a range
error is a failure for every caller in this repository). -/
def finishFloat (orig : String) (neg : Bool) (v : ℚ) (sawU : Bool) : Option GoFloat :=
  if sawU && !underscoreOK orig then none
  else
    let q := if neg then qNeg v else v
    if float64InRange q then some (.finite q) else none

/-- Decimal branch of strconv.ParseFloat after the sign: a mantissa with
at least one digit, then an optional e/E exponent whose first character
after an optional sign must be a digit; the whole string must be
consumed. -/
def goParseFloatDec (orig : String) (neg : Bool) (cs : List Char) : Option GoFloat :=
  let sc := scanMantissa false cs [] none false
  if sc.digits.isEmpty then none
  else
    match sc.rest with
    | [] => finishFloat orig neg (mantValue 10 10 1 sc.digits sc.dotPos 0) sc.sawU
    | c :: r =>
      if c.toLower = 'e' then
        let (esign, r1) := stripSign r
        match r1 with
        | d :: _ =>
          if d.isDigit then
            let (eds, r2, u2) := scanExpDigits r1 [] false
            if r2.isEmpty then
              let e : ℤ := (if esign then -1 else 1) * (digitsToNat 10 eds : ℤ)
              finishFloat orig neg (mantValue 10 10 1 sc.digits sc.dotPos e) (sc.sawU || u2)
            else none
          else none
        | [] => none
      else none

/-- Hexadecimal branch of strconv.ParseFloat (after sign and 0x prefix):
hex mantissa with at least one digit and a mandatory p/P binary
exponent. -/
def goParseFloatHex (orig : String) (neg : Bool) (cs : List Char) : Option GoFloat :=
  let sc := scanMantissa true cs [] none false
  if sc.digits.isEmpty then none
  else
    match sc.rest with
    | [] => none
    | c :: r =>
      if c.toLower = 'p' then
        let (esign, r1) := stripSign r
        match r1 with
        | d :: _ =>
          if d.isDigit then
            let (eds, r2, u2) := scanExpDigits r1 [] false
            if r2.isEmpty then
              let e : ℤ := (if esign then -1 else 1) * (digitsToNat 10 eds : ℤ)
              finishFloat orig neg (mantValue 16 2 4 sc.digits sc.dotPos e) (sc.sawU || u2)
            else none
          else none
        | [] => none
      else none

/-- strconv.ParseFloat (bit size 64): the case-insensitive specials
("nan" unsigned, "inf"/"infinity" optionally signed), else a decimal or
hexadecimal literal. -/
def goParseFloat (s : String) : Option GoFloat :=
  let cs := s.data
  let (neg, cs1) := stripSign cs
  let lowAll := String.mk (cs.map Char.toLower)
  let lowAfter := String.mk (cs1.map Char.toLower)
  if lowAll = "nan" then some .nan
  else if lowAfter = "inf" ∨ lowAfter = "infinity" then some (.infinite neg)
  else
    match cs1 with
    | '0' :: x :: r =>
      if x.toLower = 'x' then goParseFloatHex s neg r else goParseFloatDec s neg cs1
    | _ => goParseFloatDec s neg cs1

/-- time's leadingInt: consume decimal digits into a uint64-bounded
accumulator; `none` on overflow past 2^63. -/
def leadingIntAux : List Char → ℕ → Option (ℕ × List Char)
  | [], x => some (x, [])
  | c :: cs, x =>
    if c.isDigit then
      if x > 922337203685477580 then none
      else
        let x2 := x * 10 + (c.toNat - 48)
        if x2 > 9223372036854775808 then none
        else leadingIntAux cs x2
    else some (x, c :: cs)

/-- time's leadingFraction: consume fractional digits, silently dropping
digits once the accumulator would overflow int64; returns the value, the
count of digits kept (Go keeps the scale 10^count), and the rest. -/
def leadingFractionAux : List Char → ℕ → ℕ → Bool → ℕ × ℕ × List Char
  | [], x, scale, _ => (x, scale, [])
  | c :: cs, x, scale, overflow =>
    if c.isDigit then
      if overflow then leadingFractionAux cs x scale true
      else if x > 922337203685477580 then leadingFractionAux cs x scale true
      else
        let y := x * 10 + (c.toNat - 48)
        if y > 9223372036854775807 then leadingFractionAux cs x scale true
        else leadingFractionAux cs y (scale + 1) false
    else (x, scale, c :: cs)

/-- time's unitMap: nanoseconds per accepted unit. -/
def durationUnits (u : String) : Option ℕ :=
  if u = "ns" then some 1
  else if u = "us" ∨ u = "µs" ∨ u = "μs" then some 1000
  else if u = "ms" then some 1000000
  else if u = "s" then some 1000000000
  else if u = "m" then some 60000000000
  else if u = "h" then some 3600000000000
  else none

/-- The main loop of time.ParseDuration: one `[digits][.digits]unit`
component per iteration, accumulating nanoseconds with uint64 overflow
checks at boundary 2^63.  The fractional contribution
uint64(float64(f) * (float64(unit)/scale)) is modelled as the exact
⌊f·unit/10^scale⌋.  Each iteration consumes at least one character, so a
fuel of the remaining length suffices and is never exhausted. -/
def parseDurationItems : ℕ → List Char → ℕ → Option ℕ
  | 0, _, _ => none
  | _, [], d => some d
  | fuel + 1, c :: cs, d =>
    if !(c == '.' || c.isDigit) then none
    else
      match leadingIntAux (c :: cs) 0 with
      | none => none
      | some (v, rest) =>
        let pre : Bool := decide (rest.length < (c :: cs).length)
        let (f, scale, rest2, post) :=
          match rest with
          | '.' :: r =>
            let (f, sc, r2) := leadingFractionAux r 0 0 false
            (f, sc, r2, decide (r2.length < r.length))
          | _ => (0, 0, rest, false)
        if !pre && !post then none
        else
          let uChars := rest2.takeWhile fun ch => !(ch == '.' || ch.isDigit)
          let rest3 := rest2.drop uChars.length
          if uChars.isEmpty then none
          else
            match durationUnits (String.mk uChars) with
            | none => none
            | some unit =>
              if v > 9223372036854775808 / unit then none
              else
                let v1 := v * unit
                let v2 := if f > 0 then v1 + f * unit / 10 ^ scale else v1
                if v2 > 9223372036854775808 then none
                else
                  let d2 := d + v2
                  if d2 > 9223372036854775808 then none
                  else parseDurationItems fuel rest3 d2

/-- time.ParseDuration, as exact seconds: optional sign, the literal "0",
or one or more duration components; a positive total above 2^63-1 ns is
rejected (the negative total -2^63 ns is representable). -/
def goParseDuration (s : String) : Option ℚ :=
  let (neg, cs) := stripSign s.data
  if cs = ['0'] then some 0
  else if cs.isEmpty then none
  else
    match parseDurationItems (cs.length + 1) cs 0 with
    | none => none
    | some d =>
      if !neg && d > 9223372036854775807 then none
      else
        let dz : ℤ := if neg then -(d : ℤ) else (d : ℤ)
        some (Rat.divInt dz 1000000000)

/-- float64(q) + v for the HH:MM:SS total (infinities and NaN absorb the
finite part, as in float64 addition). -/
def goFloatAddQ (q : ℚ) : GoFloat → GoFloat
  | .finite r => .finite (qAdd q r)
  | v => v

/-- Wrap-around of int64 arithmetic, for h*3600 + m*60 on extreme Atoi
results. -/
def wrap64 (z : ℤ) : ℤ :=
  (z + 2 ^ 63) % 2 ^ 64 - 2 ^ 63

/-- Worker for `splitOnChar`: split at each separator, keeping empty
fields (the accumulator holds the current field reversed). -/
def splitOnCharAux (sep : Char) : List Char → List Char → List (List Char)
  | [], acc => [acc.reverse]
  | c :: cs, acc =>
    if c = sep then acc.reverse :: splitOnCharAux sep cs []
    else splitOnCharAux sep cs (c :: acc)

/-- strings.Split with a single-character separator (empty fields kept;
the empty string yields one empty field). -/
def splitOnChar (sep : Char) (s : String) : List String :=
  (splitOnCharAux sep s.data []).map String.mk

/-- postprocessor.parseTimeToSeconds: try time.ParseDuration, then a bare
strconv.ParseFloat number, then HH:MM:SS (Atoi, Atoi, ParseFloat on the
three ":"-separated fields); anything else is an error.  The model
returns the numeric value in seconds: the Go function returns it as a
string ("%.3f", or the input verbatim in the bare-number branch), which
is representation only. -/
def parseTimeToSeconds (timeStr : String) : Except String GoFloat :=
  match goParseDuration timeStr with
  | some secs => .ok (.finite secs)
  | none =>
    match goParseFloat timeStr with
    | some v => .ok v
    | none =>
      match splitOnChar ':' timeStr with
      | [p0, p1, p2] =>
        match goAtoi p0, goAtoi p1, goParseFloat p2 with
        | some h, some m, some sv =>
          .ok (goFloatAddQ ((wrap64 (h * 3600 + m * 60) : ℤ) : ℚ) sv)
        | _, _, _ =>
          .error ("invalid time format: " ++ timeStr ++
            " (expected: 1m30s, 90, or 00:01:30)")
      | _ =>
        .error ("invalid time format: " ++ timeStr ++
          " (expected: 1m30s, 90, or 00:01:30)")

/-- The output path ClipVideo produces:
base ++ "_clip_" ++ start ++ "_" ++ end ++ ext, with ":" → "-" in the
timestamps (the original strings are used, not the normalized seconds). -/
def clipOutputPath (inputPath startTime endTime : String) : String :=
  let ext := filepathExt inputPath
  let base := trimSuffix inputPath ext
  base ++ "_clip_" ++ replaceColons startTime ++ "_" ++ replaceColons endTime ++ ext

/-- ClipVideo: normalize both times (failing fast with a qualified error),
then stream-copy the segment with ffmpeg. -/
def ClipVideo (env : FFEnv) (inputPath startTime endTime : String) :
    Except String String × List FFEff :=
  match parseTimeToSeconds startTime with
  | .error e => (.error ("invalid start time: " ++ e), [])
  | .ok _ =>
    match parseTimeToSeconds endTime with
    | .error e => (.error ("invalid end time: " ++ e), [])
    | .ok _ =>
      let outputPath := clipOutputPath inputPath startTime endTime
      if env.clipRunOk outputPath then
        (.ok outputPath, [.runClip inputPath outputPath])
      else
        (.error "ffmpeg clip failed", [.runClip inputPath outputPath])

/-- Stage 1 of FFmpegProcessor.Process (clipping): runs only when BOTH
markers are set; on success it removes the original input when the clip
is a different file, and the clip becomes the working file. -/
def processClipStage (env : FFEnv) (inputPath : String)
    (options : DownloadOptions) : Except String String × List FFEff :=
  if options.clipStart ≠ "" ∧ options.clipEnd ≠ "" then
    match ClipVideo env inputPath options.clipStart options.clipEnd with
    | (.error e, t) => (.error ("clip video: " ++ e), t)
    | (.ok p, t) =>
      if p ≠ inputPath then (.ok p, t ++ [.removeFile inputPath])
      else (.ok p, t)
  else (.ok inputPath, [])

/-- Stage 2 of Process (GIF conversion): converts the current working
file, then removes `inputPath` — the ORIGINAL Process argument, not the
current working file — when it does not end in ".gif". -/
def processGifStage (f : FFmpegProcessor) (env : FFEnv)
    (inputPath currentPath : String) (width : Int) :
    Except String String × List FFEff :=
  match ConvertToGIF f env currentPath width "" "" with
  | (.error e, t2) => (.error ("convert to gif: " ++ e), t2)
  | (.ok gifPath, t2) =>
    if !hasSuffix inputPath ".gif" then
      (.ok gifPath, t2 ++ [.removeFile inputPath])
    else (.ok gifPath, t2)

/-- Stage 3 of Process (compatibility normalization): convert to WhatsApp
MP4 unless the working file is already compatible, removing the
pre-normalization file on success. -/
def processCompatStage (env : FFEnv) (currentPath : String) :
    Except String String × List FFEff :=
  match IsWhatsAppCompatible env currentPath with
  | (.error e, t2) => (.error ("check whatsapp compatibility: " ++ e), t2)
  | (.ok (compatible, reason), t2) =>
    if !compatible then
      match ConvertToWhatsAppMP4 env currentPath with
      | (.error e, t3) =>
        (.error ("convert to whatsapp mp4: " ++ e ++ " (reason: " ++ reason ++ ")"),
          t2 ++ t3)
      | (.ok whatsappPath, t3) =>
        if whatsappPath ≠ currentPath then
          (.ok whatsappPath, t2 ++ t3 ++ [.removeFile currentPath])
        else (.ok whatsappPath, t2 ++ t3)
    else (.ok currentPath, t2)

/-- FFmpegProcessor.Process: the conditional three-stage pipeline in
source order — clipping, then terminal GIF conversion, else
compatibility normalization. -/
def Process (f : FFmpegProcessor) (env : FFEnv) (inputPath : String)
    (options : DownloadOptions) : Except String String × List FFEff :=
  match processClipStage env inputPath options with
  | (.error e, t1) => (.error e, t1)
  | (.ok currentPath, t1) =>
    if options.convertToGIF then
      let width : Int := if options.gifWidth > 0 then options.gifWidth else 480
      match processGifStage f env inputPath currentPath width with
      | (r, t2) => (r, t1 ++ t2)
    else
      match processCompatStage env currentPath with
      | (r, t2) => (r, t1 ++ t2)

/-- FFmpegProcessor.NeedsProcessing, with its probe trace: always true
when clipping or GIF conversion is requested (either marker alone
suffices); otherwise the compatibility check decides, a probe failure
counting conservatively as "needs processing".  The Go signature also
returns an error, but every path returns nil. -/
def NeedsProcessingT (env : FFEnv) (inputPath : String)
    (options : DownloadOptions) : Bool × List FFEff :=
  if options.clipStart ≠ "" ∨ options.clipEnd ≠ "" ∨ options.convertToGIF then
    (true, [])
  else
    match IsWhatsAppCompatible env inputPath with
    | (.error _, t) => (true, t)
    | (.ok (compatible, _), t) => (!compatible, t)

/-- FFmpegProcessor.NeedsProcessing, result only. -/
def NeedsProcessing (env : FFEnv) (inputPath : String)
    (options : DownloadOptions) : Bool :=
  (NeedsProcessingT env inputPath options).1

/-- A store write issued by the engine: sqlite DownloadRepository's
UpdateStatus(id, status, errMsg) or UpdateOutputPath(id, path). -/
inductive StoreWrite
  | setStatus (st : DownloadStatus) (errMsg : String)
  | setOutputPath (p : String)
deriving DecidableEq, Repr

/-- Effect of one store write on a row.  UpdateStatus always overwrites
error_message and sets completed_at exactly when the new status is
terminal (NULL otherwise); UpdateOutputPath touches only output_path. -/
def applyStoreWrite : StoreWrite → Download → Download
  | .setStatus st errMsg, d =>
    { d with status := st, errorMessage := errMsg,
             completedAtSet := st = .completed ∨ st = .failed }
  | .setOutputPath p, d => { d with outputPath := p }

/-- An attempted write paired with whether the store accepted it (a
failed write leaves the row unchanged and is only logged). -/
abbrev WriteAttempt := StoreWrite × Bool

/-- Apply a sequence of attempted writes to a row. -/
def applyWrites (init : Download) (ws : List WriteAttempt) : Download :=
  ws.foldl (fun d w => if w.2 then applyStoreWrite w.1 d else d) init

/-- The row states after each successive write attempt (a failed attempt
repeats the previous state). -/
def traceStates (init : Download) (ws : List WriteAttempt) : List Download :=
  (ws.foldl
    (fun (acc : Download × List Download) w =>
      let d := if w.2 then applyStoreWrite w.1 acc.1 else acc.1
      (d, acc.2 ++ [d]))
    (init, [])).2

/-- Per-job oracles for one worker execution: the acquisition
(downloader.Manager.Download) outcome, the ffmpeg environment, the
processor's temp directory, and whether the i-th store write attempt of
this execution succeeds. -/
structure JobOracle where
  downloadResult : Except String String
  env : FFEnv
  tempDir : String
  writeOk : ℕ → Bool

/-- Observable outcome of one QueueManager.processDownload execution:
the store writes attempted in order (with their success), the desktop
notifications sent, the clipboard write, and the postprocessor side
effects. -/
structure RunResult where
  writes : List WriteAttempt
  notices : List (String × String)
  clipboard : Option String
  effects : List FFEff
deriving Repr

/-- QueueManager.processDownload for one admitted job `dl` (as read from
the store), against the oracles.  Mirrors internal/daemon/server.go:
a failed transition to downloading aborts; a download error writes
failed + notifies; the processing-status and output-path write failures
are logged but processing continues; a failed transition to completed
skips only the notification and clipboard.  The postprocessor is the
FFmpegProcessor the daemon installs (never nil). -/
def processDownloadRun (o : JobOracle) (dl : Download) : RunResult :=
  if !o.writeOk 0 then
    ⟨[(.setStatus .downloading "", false)], [], none, []⟩
  else
    match o.downloadResult with
    | .error e =>
      ⟨[(.setStatus .downloading "", true), (.setStatus .failed e, o.writeOk 1)],
        [("Download Failed", "Failed to download: " ++ dl.url)], none, []⟩
    | .ok outputPath =>
      if dl.options.audioOnly then
        ⟨[(.setStatus .downloading "", true),
          (.setOutputPath outputPath, o.writeOk 1),
          (.setStatus .completed "", o.writeOk 2)],
          (if o.writeOk 2 then [("Download Complete", "Ready: " ++ outputPath)] else []),
          (if o.writeOk 2 then some outputPath else none), []⟩
      else
        let np := NeedsProcessingT o.env outputPath dl.options
        if np.1 ∨ dl.options.clipStart ≠ "" ∨ dl.options.convertToGIF then
          match Process ⟨o.tempDir⟩ o.env outputPath dl.options with
          | (.error e, effP) =>
            ⟨[(.setStatus .downloading "", true),
              (.setStatus .processing "", o.writeOk 1),
              (.setStatus .failed ("post-processing: " ++ e), o.writeOk 2)],
              [("Processing Failed", "Failed to process: " ++ outputPath)],
              none, np.2 ++ effP⟩
          | (.ok processedPath, effP) =>
            ⟨[(.setStatus .downloading "", true),
              (.setStatus .processing "", o.writeOk 1),
              (.setOutputPath processedPath, o.writeOk 2),
              (.setStatus .completed "", o.writeOk 3)],
              (if o.writeOk 3 then
                [("Download Complete", "Ready: " ++ processedPath)] else []),
              (if o.writeOk 3 then some processedPath else none), np.2 ++ effP⟩
        else
          ⟨[(.setStatus .downloading "", true),
            (.setOutputPath outputPath, o.writeOk 1),
            (.setStatus .completed "", o.writeOk 2)],
            (if o.writeOk 2 then [("Download Complete", "Ready: " ++ outputPath)] else []),
            (if o.writeOk 2 then some outputPath else none), np.2⟩

/-- Handlers.HandleAdd, after JSON decoding: rejects only an empty URL;
otherwise builds the pending Download with the request's options taken
verbatim (no validation of the options bag).  Platform/username
detection (internal/downloader/detector.go) is an oracle parameter. -/
def HandleAdd (detect : String → String × String) (url : String)
    (options : Option DownloadOptions) : Except String Download :=
  if url = "" then .error "url is required"
  else
    .ok { url := url, platform := (detect url).1, username := (detect url).2,
          status := .pending, options := options.getD {} }

/-- domain.Download.IsActive: downloading or processing. -/
def IsActive (d : Download) : Bool :=
  decide (d.status = .downloading ∨ d.status = .processing)

/-- NewQueueManager's worker-count normalization: a non-positive request
falls back to the default of 3. -/
def queueWorkers (workers : ℤ) : ℕ :=
  if workers ≤ 0 then 3 else workers.toNat

/-- One admitted worker: the job it holds and its remaining store-write
attempts (the writes a processDownload execution will issue, precomputed
from the per-job oracles; a worker touches only its own row, so its
behavior is independent of the interleaving). -/
structure Worker where
  jobId : ℤ
  ops : List WriteAttempt

/-- Static configuration of a queue-manager run: pool size (after
`queueWorkers`), per-job oracles, and the ids present in the store. -/
structure SysConfig where
  n : ℕ
  oracle : ℤ → JobOracle
  ids : List ℤ

/-- Shared state: the store (one row per id), the live workers, and the
number of held semaphore slots (len(q.workerPool)). -/
structure SysState where
  store : ℤ → Download
  workers : List Worker
  slots : ℕ

/-- Point update of the store. -/
def setJob (store : ℤ → Download) (j : ℤ) (d : Download) : ℤ → Download :=
  fun i => if i = j then d else store i

/-- Interleaved small-step semantics of the queue manager:
`admitJob` is checkPendingDownloads admitting a pending job into a free slot
(non-blocking: requires slots < n) and spawning a worker; `work` is a
worker issuing its next store write (a failed write leaves the row
unchanged); `finish` is a worker returning, releasing its slot via the
deferred pool read. -/
inductive SysStep (cfg : SysConfig) : SysState → SysState → Prop
  | admitJob (s : SysState) (j : ℤ) (hmem : j ∈ cfg.ids)
      (hp : (s.store j).status = .pending) (hs : s.slots < cfg.n) :
      SysStep cfg s
        ⟨s.store,
         ⟨j, (processDownloadRun (cfg.oracle j) (s.store j)).writes⟩ :: s.workers,
         s.slots + 1⟩
  | work (s : SysState) (w₁ w₂ : List Worker) (j : ℤ) (op : WriteAttempt)
      (rest : List WriteAttempt)
      (hw : s.workers = w₁ ++ ⟨j, op :: rest⟩ :: w₂) :
      SysStep cfg s
        ⟨setJob s.store j (if op.2 then applyStoreWrite op.1 (s.store j) else s.store j),
         w₁ ++ ⟨j, rest⟩ :: w₂, s.slots⟩
  | finish (s : SysState) (w₁ w₂ : List Worker) (j : ℤ)
      (hw : s.workers = w₁ ++ ⟨j, []⟩ :: w₂) :
      SysStep cfg s ⟨s.store, w₁ ++ w₂, s.slots - 1⟩

/-- Initial state: the given store contents, no workers, empty pool. -/
def initState (jobs0 : ℤ → Download) : SysState := ⟨jobs0, [], 0⟩

/-- Reachability under the queue-manager semantics. -/
def Reachable (cfg : SysConfig) (s0 s : SysState) : Prop :=
  Relation.ReflTransGen (SysStep cfg) s0 s

/-- Number of jobs currently in downloading or processing status. -/
def activeCount (cfg : SysConfig) (s : SysState) : ℕ :=
  (cfg.ids.filter fun j => IsActive (s.store j)).length

end SmartDownload

namespace SmartDownload

/-- The compatibility envelope as the specification words it: target video
codec h264, target audio codec aac when audio is present, height at most
the 1080 cap. -/
def whatsAppCompatSpec (info : VideoInfo) : Prop :=
  info.videoCodec = "h264" ∧ (info.hasAudio = true → info.audioCodec = "aac") ∧
    info.height ≤ 1080

instance (info : VideoInfo) : Decidable (whatsAppCompatSpec info) := by
  unfold whatsAppCompatSpec; infer_instance

lemma isCompat_of_spec {env : FFEnv} {path : String} {info : VideoInfo}
    (h : env.probe path = some info) (hc : whatsAppCompatSpec info) :
    IsWhatsAppCompatible env path = (.ok (true, ""), [.probeFile path]) := by
  obtain ⟨h1, h2, h3⟩ := hc
  have h3' : ¬ info.height > 1080 := by omega
  by_cases ha : info.hasAudio
  · have h2' := h2 ha
    simp [IsWhatsAppCompatible, GetVideoInfo, h, h1, h2', h3', ha]
  · simp [IsWhatsAppCompatible, GetVideoInfo, h, h1, h3', ha]

lemma spec_of_compat_true {env : FFEnv} {path : String} {info : VideoInfo} {r : String}
    (h : env.probe path = some info)
    (hb : (IsWhatsAppCompatible env path).1 = .ok (true, r)) :
    whatsAppCompatSpec info := by
  by_cases h1 : info.videoCodec = "h264"
  · by_cases ha : info.hasAudio = true
    · by_cases h2 : info.audioCodec = "aac"
      · by_cases h3 : info.height ≤ 1080
        · exact ⟨h1, fun _ => h2, h3⟩
        · have h3' : info.height > 1080 := by omega
          simp [IsWhatsAppCompatible, GetVideoInfo, h, h3'] at hb
      · simp [IsWhatsAppCompatible, GetVideoInfo, h, ha, h2] at hb
    · by_cases h3 : info.height ≤ 1080
      · exact ⟨h1, fun hx => absurd hx ha, h3⟩
      · have h3' : info.height > 1080 := by omega
        simp [IsWhatsAppCompatible, GetVideoInfo, h, h3'] at hb
  · simp [IsWhatsAppCompatible, GetVideoInfo, h, h1] at hb

lemma process_compat_skip {env : FFEnv} {path : String} {info : VideoInfo}
    (f : FFmpegProcessor) {opts : DownloadOptions}
    (h : env.probe path = some info) (hc : whatsAppCompatSpec info)
    (hcs : opts.clipStart = "") (hg : opts.convertToGIF = false) :
    Process f env path opts = (.ok path, [.probeFile path]) := by
  have h1 : processClipStage env path opts = (.ok path, []) := by
    simp [processClipStage, hcs]
  have h2 : processCompatStage env path = (.ok path, [.probeFile path]) := by
    simp [processCompatStage, isCompat_of_spec h hc]
  simp [Process, h1, h2, hg]

end SmartDownload

namespace SmartDownload

/-- A probe result inside the compatibility envelope. -/
def compatInfo : VideoInfo :=
  { width := 1280, height := 720, videoCodec := "h264", audioCodec := "aac",
    hasVideo := true, hasAudio := true }

/-- A probe result outside the envelope (vp9 video, opus audio). -/
def vp9Info : VideoInfo :=
  { width := 1920, height := 1080, videoCodec := "vp9", audioCodec := "opus",
    hasVideo := true, hasAudio := true }

/-- An environment in which every probe returns `i` and every ffmpeg run
succeeds. -/
def allOkEnv (i : VideoInfo) : FFEnv :=
  ⟨fun _ => some i, fun _ => true, fun _ => true, fun _ => true, fun _ => true⟩

/-- C5: IsWhatsAppCompatible reports compatible exactly when the video
codec is h264, the audio codec (when an audio stream is present) is aac,
and the height is at most 1080; and on a compatible file, Process (with
no segment markers and no GIF request) returns the working path unchanged
and never invokes the WhatsApp conversion. -/
theorem c5_compat_iff_and_skip (env : FFEnv) (path : String) (info : VideoInfo)
    (f : FFmpegProcessor) (opts : DownloadOptions)
    (h : env.probe path = some info)
    (hcs : opts.clipStart = "") (hg : opts.convertToGIF = false) :
    (∀ b r, (IsWhatsAppCompatible env path).1 = .ok (b, r) →
      (b = true ↔ whatsAppCompatSpec info)) ∧
    (whatsAppCompatSpec info →
      (Process f env path opts).1 = .ok path ∧
      ∀ i o, FFEff.runConvert i o ∉ (Process f env path opts).2) := by
  constructor
  · intro b r hb
    constructor
    · intro hbt; subst hbt; exact spec_of_compat_true h hb
    · intro hc
      have he := isCompat_of_spec h hc
      rw [he] at hb
      have : (true, "") = (b, r) := by simpa using hb
      simpa using congrArg Prod.fst this
  · intro hc
    rw [process_compat_skip f h hc hcs hg]
    simp

/-- Closed instance of `c5_compat_iff_and_skip` at a concrete compatible
environment. -/
theorem c5_compat_iff_and_skip_witness :
    (∀ b r, (IsWhatsAppCompatible (allOkEnv compatInfo) "/tmp/a.mp4").1 = .ok (b, r) →
      (b = true ↔ whatsAppCompatSpec compatInfo)) ∧
    (whatsAppCompatSpec compatInfo →
      (Process ⟨"/tmp"⟩ (allOkEnv compatInfo) "/tmp/a.mp4" {}).1 = .ok "/tmp/a.mp4" ∧
      ∀ i o, FFEff.runConvert i o ∉ (Process ⟨"/tmp"⟩ (allOkEnv compatInfo) "/tmp/a.mp4" {}).2) :=
  c5_compat_iff_and_skip (allOkEnv compatInfo) "/tmp/a.mp4" compatInfo ⟨"/tmp"⟩ {} rfl rfl rfl

/-- C1 (code bug): the skip-normalization flag (DownloadOptions.NoConvert,
CLI --no-convert, documented as "Skip auto-conversion to WhatsApp MP4")
is never consulted: on an incompatible working file with NoConvert set,
the engine still runs the WhatsApp conversion and completes with the
converted path; moreover Process is invariant under the flag. -/
theorem c1_noconvert_never_consulted :
    (FFEff.runConvert "/tmp/x.webm" "/tmp/x_whatsapp.mp4" ∈
      (processDownloadRun
        ⟨.ok "/tmp/x.webm", allOkEnv vp9Info, "/tmp", fun _ => true⟩
        { url := "https://example.com/v", options := { noConvert := true } }).effects) ∧
    ((applyWrites { url := "https://example.com/v", options := { noConvert := true } }
        (processDownloadRun
          ⟨.ok "/tmp/x.webm", allOkEnv vp9Info, "/tmp", fun _ => true⟩
          { url := "https://example.com/v", options := { noConvert := true } }).writes).outputPath
      = "/tmp/x_whatsapp.mp4") ∧
    ((applyWrites { url := "https://example.com/v", options := { noConvert := true } }
        (processDownloadRun
          ⟨.ok "/tmp/x.webm", allOkEnv vp9Info, "/tmp", fun _ => true⟩
          { url := "https://example.com/v", options := { noConvert := true } }).writes).status
      = .completed) ∧
    (∀ (fp : FFmpegProcessor) (env : FFEnv) (p : String) (opts : DownloadOptions) (b : Bool),
      Process fp env p { opts with noConvert := b } = Process fp env p opts) := by
  refine ⟨by decide, by decide, by decide, ?_⟩
  intro fp env p opts b
  cases opts
  rfl

end SmartDownload

namespace SmartDownload

lemma hasSuffix_append (s t : String) : hasSuffix (s ++ t) t = true := by
  simp only [hasSuffix, String.data_append, List.isSuffixOf_iff_suffix]
  exact List.suffix_append s.data t.data

lemma clipVideo_ok {env : FFEnv} {i st et out : String} {t : List FFEff}
    (h : ClipVideo env i st et = (.ok out, t)) :
    out = clipOutputPath i st et ∧ t = [.runClip i out] := by
  unfold ClipVideo at h
  split at h
  · simp at h
  · split at h
    · simp at h
    · simp only [] at h
      split at h
      · obtain ⟨h1, h2⟩ := Prod.mk.injEq .. ▸ h
        obtain rfl : clipOutputPath i st et = out := by simpa using h1
        exact ⟨rfl, h2.symm⟩
      · simp at h

lemma convertToGIF_ok {f : FFmpegProcessor} {env : FFEnv} {i : String} {w : Int}
    {s d out : String} {t : List FFEff}
    (h : ConvertToGIF f env i w s d = (.ok out, t)) :
    out = trimSuffix i (filepathExt i) ++ ".gif" ∧
    t = [.runPalette i (f.tempDir ++ "/palette.png"), .runGif i out,
         .removeFile (f.tempDir ++ "/palette.png")] := by
  unfold ConvertToGIF at h
  simp only [] at h
  split at h
  · split at h
    · obtain ⟨h1, h2⟩ := Prod.mk.injEq .. ▸ h
      obtain rfl : trimSuffix i (filepathExt i) ++ ".gif" = out := by simpa using h1
      exact ⟨rfl, h2.symm⟩
    · simp at h
  · simp at h

lemma processClipStage_ok {env : FFEnv} {inputPath : String}
    {options : DownloadOptions} {p : String} {t1 : List FFEff}
    (h : processClipStage env inputPath options = (.ok p, t1)) :
    (p = inputPath ∧ t1 = []) ∨
    (p = clipOutputPath inputPath options.clipStart options.clipEnd ∧
      (t1 = [.runClip inputPath p] ∨
       t1 = [.runClip inputPath p, .removeFile inputPath])) := by
  unfold processClipStage at h
  split at h
  · rcases hc : ClipVideo env inputPath options.clipStart options.clipEnd with ⟨r, t⟩
    rw [hc] at h
    cases r with
    | error e => simp at h
    | ok q =>
      obtain ⟨rfl, rfl⟩ := clipVideo_ok hc
      dsimp only [] at h
      split at h
      · simp only [Prod.mk.injEq, Except.ok.injEq] at h
        obtain ⟨rfl, rfl⟩ := h
        exact Or.inr ⟨rfl, Or.inr rfl⟩
      · simp only [Prod.mk.injEq, Except.ok.injEq] at h
        obtain ⟨rfl, rfl⟩ := h
        exact Or.inr ⟨rfl, Or.inl rfl⟩
  · simp only [Prod.mk.injEq, Except.ok.injEq] at h
    obtain ⟨rfl, rfl⟩ := h
    exact Or.inl ⟨rfl, rfl⟩

lemma processGifStage_ok {f : FFmpegProcessor} {env : FFEnv}
    {inputPath currentPath : String} {width : Int} {out : String} {t2 : List FFEff}
    (h : processGifStage f env inputPath currentPath width = (.ok out, t2)) :
    out = trimSuffix currentPath (filepathExt currentPath) ++ ".gif" ∧
    (t2 = [.runPalette currentPath (f.tempDir ++ "/palette.png"),
           .runGif currentPath out, .removeFile (f.tempDir ++ "/palette.png")] ∨
     t2 = [.runPalette currentPath (f.tempDir ++ "/palette.png"),
           .runGif currentPath out, .removeFile (f.tempDir ++ "/palette.png"),
           .removeFile inputPath]) := by
  unfold processGifStage at h
  rcases hg2 : ConvertToGIF f env currentPath width "" "" with ⟨r2, t⟩
  rw [hg2] at h
  cases r2 with
  | error e => simp at h
  | ok g =>
    obtain ⟨rfl, rfl⟩ := convertToGIF_ok hg2
    dsimp only [] at h
    split at h
    · simp only [Prod.mk.injEq, Except.ok.injEq] at h
      obtain ⟨rfl, rfl⟩ := h
      exact ⟨rfl, Or.inr (by simp)⟩
    · simp only [Prod.mk.injEq, Except.ok.injEq] at h
      obtain ⟨rfl, rfl⟩ := h
      exact ⟨rfl, Or.inl rfl⟩

/-- C7: a GIF-requesting job is terminal for the pipeline: whenever
Process succeeds it returns the ".gif" output of the (possibly clipped)
working file, and neither the compatibility probe nor the WhatsApp
conversion is ever invoked, whatever the source codecs or resolution. -/
theorem c7_gif_terminal (f : FFmpegProcessor) (env : FFEnv) (inputPath : String)
    (opts : DownloadOptions) (out : String)
    (hg : opts.convertToGIF = true)
    (hok : (Process f env inputPath opts).1 = .ok out) :
    hasSuffix out ".gif" = true ∧
    (∀ i o, FFEff.runConvert i o ∉ (Process f env inputPath opts).2) ∧
    (∀ p, FFEff.probeFile p ∉ (Process f env inputPath opts).2) := by
  rcases hP : Process f env inputPath opts with ⟨res, tr⟩
  rw [hP] at hok
  simp only at hok
  subst hok
  unfold Process at hP
  rcases h1 : processClipStage env inputPath opts with ⟨r1, t1⟩
  rw [h1] at hP
  cases r1 with
  | error e => simp at hP
  | ok current =>
    dsimp only [] at hP
    simp only [hg, if_true] at hP
    rcases h2 : processGifStage f env inputPath current
        (if opts.gifWidth > 0 then opts.gifWidth else 480) with ⟨r2, t2⟩
    rw [h2] at hP
    simp only [Prod.mk.injEq] at hP
    obtain ⟨hr, ht⟩ := hP
    subst hr
    subst ht
    obtain ⟨hout, ht2⟩ := processGifStage_ok h2
    refine ⟨hout ▸ hasSuffix_append .., ?_, ?_⟩
    · intro i o
      rcases processClipStage_ok h1 with ⟨_, rfl⟩ | ⟨_, rfl | rfl⟩ <;>
        rcases ht2 with rfl | rfl <;> simp
    · intro p
      rcases processClipStage_ok h1 with ⟨_, rfl⟩ | ⟨_, rfl | rfl⟩ <;>
        rcases ht2 with rfl | rfl <;> simp

/-- Closed instance of `c7_gif_terminal`: a GIF job on a vp9 source still
ends in the GIF, with no normalization. -/
theorem c7_gif_terminal_witness :
    hasSuffix "/tmp/v.gif" ".gif" = true ∧
    (∀ i o, FFEff.runConvert i o ∉
      (Process ⟨"/tmp"⟩ (allOkEnv vp9Info) "/tmp/v.mp4" { convertToGIF := true }).2) ∧
    (∀ p, FFEff.probeFile p ∉
      (Process ⟨"/tmp"⟩ (allOkEnv vp9Info) "/tmp/v.mp4" { convertToGIF := true }).2) :=
  c7_gif_terminal ⟨"/tmp"⟩ (allOkEnv vp9Info) "/tmp/v.mp4" { convertToGIF := true }
    "/tmp/v.gif" rfl rfl

end SmartDownload

namespace SmartDownload

/-- C8 counterexample: with a preceding segment extraction, a successful
GIF conversion does NOT delete the pre-conversion working file (the
extracted clip); it deletes the download's original input (again).  The
clip "/tmp/v_clip_5_10.mp4" survives the run that produced
"/tmp/v_clip_5_10.gif". -/
theorem c8_counterexample :
    (Process ⟨"/tmp"⟩ (allOkEnv vp9Info) "/tmp/v.mp4"
        { clipStart := "5", clipEnd := "10", convertToGIF := true }).1 =
      .ok "/tmp/v_clip_5_10.gif" ∧
    FFEff.removeFile "/tmp/v_clip_5_10.mp4" ∉
      (Process ⟨"/tmp"⟩ (allOkEnv vp9Info) "/tmp/v.mp4"
        { clipStart := "5", clipEnd := "10", convertToGIF := true }).2 ∧
    FFEff.removeFile "/tmp/v.mp4" ∈
      (Process ⟨"/tmp"⟩ (allOkEnv vp9Info) "/tmp/v.mp4"
        { clipStart := "5", clipEnd := "10", convertToGIF := true }).2 :=
  ⟨rfl, by decide, by decide⟩

lemma processClipStage_markers_ok {env : FFEnv} {inputPath : String}
    {options : DownloadOptions} {p : String} {t1 : List FFEff}
    (hm : options.clipStart ≠ "" ∧ options.clipEnd ≠ "")
    (hne : clipOutputPath inputPath options.clipStart options.clipEnd ≠ inputPath)
    (h : processClipStage env inputPath options = (.ok p, t1)) :
    p = clipOutputPath inputPath options.clipStart options.clipEnd ∧
    t1 = [.runClip inputPath p, .removeFile inputPath] := by
  unfold processClipStage at h
  rw [if_pos hm] at h
  rcases hc : ClipVideo env inputPath options.clipStart options.clipEnd with ⟨r, t⟩
  rw [hc] at h
  cases r with
  | error e => simp at h
  | ok q =>
    obtain ⟨rfl, rfl⟩ := clipVideo_ok hc
    dsimp only [] at h
    rw [if_pos hne] at h
    simp only [Prod.mk.injEq, Except.ok.injEq] at h
    obtain ⟨rfl, rfl⟩ := h
    exact ⟨rfl, by simp⟩

/-- C8 amended: in the GIF stage the file deleted on success is the
download's ORIGINAL input (when it does not already end in ".gif"), not
the current working file: after a preceding segment extraction the
extracted clip is never removed and survives the successful GIF
conversion as an intermediate. -/
theorem c8_gif_removes_original_not_clip (f : FFmpegProcessor) (env : FFEnv)
    (inputPath : String) (opts : DownloadOptions) (out : String)
    (hg : opts.convertToGIF = true)
    (hcs : opts.clipStart ≠ "") (hce : opts.clipEnd ≠ "")
    (hok : (Process f env inputPath opts).1 = .ok out)
    (hne : clipOutputPath inputPath opts.clipStart opts.clipEnd ≠ inputPath)
    (hpal : f.tempDir ++ "/palette.png" ≠
      clipOutputPath inputPath opts.clipStart opts.clipEnd) :
    FFEff.removeFile inputPath ∈ (Process f env inputPath opts).2 ∧
    FFEff.removeFile (clipOutputPath inputPath opts.clipStart opts.clipEnd) ∉
      (Process f env inputPath opts).2 := by
  rcases hP : Process f env inputPath opts with ⟨res, tr⟩
  rw [hP] at hok
  simp only at hok
  subst hok
  unfold Process at hP
  rcases h1 : processClipStage env inputPath opts with ⟨r1, t1⟩
  rw [h1] at hP
  cases r1 with
  | error e => simp at hP
  | ok current =>
    dsimp only [] at hP
    simp only [hg, if_true] at hP
    rcases h2 : processGifStage f env inputPath current
        (if opts.gifWidth > 0 then opts.gifWidth else 480) with ⟨r2, t2⟩
    rw [h2] at hP
    simp only [Prod.mk.injEq] at hP
    obtain ⟨hr, ht⟩ := hP
    subst hr
    subst ht
    obtain ⟨hcur, ht1⟩ := processClipStage_markers_ok ⟨hcs, hce⟩ hne h1
    subst hcur
    obtain ⟨hout, ht2⟩ := processGifStage_ok h2
    subst ht1
    constructor
    · simp
    · rcases ht2 with rfl | rfl <;>
        simp [hne, Ne.symm hpal]
end SmartDownload

namespace SmartDownload

/-- Closed instance of `c8_gif_removes_original_not_clip` on a concrete
clip+GIF run. -/
theorem c8_gif_removes_original_not_clip_witness :
    FFEff.removeFile "/tmp/v.mp4" ∈
      (Process ⟨"/tmp"⟩ (allOkEnv vp9Info) "/tmp/v.mp4"
        { clipStart := "5", clipEnd := "15", convertToGIF := true }).2 ∧
    FFEff.removeFile (clipOutputPath "/tmp/v.mp4" "5" "15") ∉
      (Process ⟨"/tmp"⟩ (allOkEnv vp9Info) "/tmp/v.mp4"
        { clipStart := "5", clipEnd := "15", convertToGIF := true }).2 :=
  c8_gif_removes_original_not_clip ⟨"/tmp"⟩ (allOkEnv vp9Info) "/tmp/v.mp4"
    { clipStart := "5", clipEnd := "15", convertToGIF := true }
    "/tmp/v_clip_5_15.gif" rfl (by decide) (by decide) rfl (by decide) (by decide)

end SmartDownload

namespace SmartDownload

lemma processClipStage_none {env : FFEnv} {inputPath : String}
    {options : DownloadOptions}
    (h : ¬(options.clipStart ≠ "" ∧ options.clipEnd ≠ "")) :
    processClipStage env inputPath options = (.ok inputPath, []) := by
  simp only [processClipStage, if_neg h]

lemma process_ignores_lone_marker (f : FFmpegProcessor) (env : FFEnv)
    (p : String) (opts : DownloadOptions)
    (h : opts.clipStart = "" ∨ opts.clipEnd = "") :
    Process f env p opts =
      Process f env p { opts with clipStart := "", clipEnd := "" } := by
  have hc1 : ¬(opts.clipStart ≠ "" ∧ opts.clipEnd ≠ "") := by
    rcases h with h | h <;> simp [h]
  have hc2 : ¬(({ opts with clipStart := "", clipEnd := "" } :
      DownloadOptions).clipStart ≠ "" ∧
      ({ opts with clipStart := "", clipEnd := "" } :
      DownloadOptions).clipEnd ≠ "") := by simp
  cases opts
  unfold Process
  rw [processClipStage_none hc1, processClipStage_none hc2]

/-- C10: a one-sided segment marker is accepted by admission (HandleAdd
performs no validation, storing the options verbatim), makes
NeedsProcessing report true, yet Process silently skips the clipping
stage: it behaves exactly as if neither marker were set, raising no error
for the lone marker. -/
theorem c10_lone_marker_skipped (detect : String → String × String)
    (url : String) (opts : DownloadOptions) (f : FFmpegProcessor)
    (env : FFEnv) (p : String)
    (hu : url ≠ "") (hone : opts.clipStart = "" ∨ opts.clipEnd = "")
    (hreq : opts.clipStart ≠ "" ∨ opts.clipEnd ≠ "") :
    HandleAdd detect url (some opts) =
      .ok { url := url, platform := (detect url).1, username := (detect url).2,
            status := .pending, options := opts } ∧
    NeedsProcessing env p opts = true ∧
    Process f env p opts =
      Process f env p { opts with clipStart := "", clipEnd := "" } := by
  refine ⟨by simp [HandleAdd, hu], ?_,
    process_ignores_lone_marker f env p opts hone⟩
  unfold NeedsProcessing NeedsProcessingT
  rcases hreq with h | h <;> simp [h]

/-- Closed instance of `c10_lone_marker_skipped`: a job with only
clip_end set. -/
theorem c10_lone_marker_skipped_witness :
    HandleAdd (fun _ => ("youtube", "user")) "https://youtube.com/watch"
        (some { clipEnd := "30" }) =
      .ok { url := "https://youtube.com/watch", platform := "youtube",
            username := "user", status := .pending,
            options := { clipEnd := "30" } } ∧
    NeedsProcessing (allOkEnv compatInfo) "/tmp/a.mp4" { clipEnd := "30" } = true ∧
    Process ⟨"/tmp"⟩ (allOkEnv compatInfo) "/tmp/a.mp4" { clipEnd := "30" } =
      Process ⟨"/tmp"⟩ (allOkEnv compatInfo) "/tmp/a.mp4"
        { ({ clipEnd := "30" } : DownloadOptions) with
          clipStart := "", clipEnd := "" } :=
  c10_lone_marker_skipped (fun _ => ("youtube", "user"))
    "https://youtube.com/watch" { clipEnd := "30" } ⟨"/tmp"⟩
    (allOkEnv compatInfo) "/tmp/a.mp4" (by decide) (Or.inl rfl) (Or.inr (by decide))

/-- C9: when acquisition fails, the engine transitions the job to failed
with the dispatcher's error text verbatim, emits the best-effort failure
notification, attempts no further store writes, performs no
post-processing, and leaves the result path empty. -/
theorem c9_dispatch_error (o : JobOracle) (dl : Download) (e : String)
    (hd : o.downloadResult = .error e) (h0 : o.writeOk 0 = true)
    (h1 : o.writeOk 1 = true) (hinit : dl.outputPath = "") :
    (processDownloadRun o dl).writes =
      [(.setStatus .downloading "", true), (.setStatus .failed e, true)] ∧
    (applyWrites dl (processDownloadRun o dl).writes).status = .failed ∧
    (applyWrites dl (processDownloadRun o dl).writes).errorMessage = e ∧
    (applyWrites dl (processDownloadRun o dl).writes).outputPath = "" ∧
    (processDownloadRun o dl).notices =
      [("Download Failed", "Failed to download: " ++ dl.url)] ∧
    (processDownloadRun o dl).clipboard = none ∧
    (processDownloadRun o dl).effects = [] := by
  have hrun : processDownloadRun o dl =
      ⟨[(.setStatus .downloading "", true), (.setStatus .failed e, o.writeOk 1)],
        [("Download Failed", "Failed to download: " ++ dl.url)], none, []⟩ := by
    unfold processDownloadRun
    rw [h0, hd]
    rfl
  rw [hrun, h1]
  refine ⟨rfl, ?_, ?_, ?_, rfl, rfl, rfl⟩ <;>
    simp [applyWrites, applyStoreWrite, hinit]

/-- Closed instance of `c9_dispatch_error` with the "site unsupported"
scenario. -/
theorem c9_dispatch_error_witness :
    (processDownloadRun
        ⟨.error "site unsupported", allOkEnv compatInfo, "/tmp", fun _ => true⟩
        { url := "https://example.com/v" }).writes =
      [(.setStatus .downloading "", true),
       (.setStatus .failed "site unsupported", true)] ∧
    (applyWrites { url := "https://example.com/v" }
      (processDownloadRun
        ⟨.error "site unsupported", allOkEnv compatInfo, "/tmp", fun _ => true⟩
        { url := "https://example.com/v" }).writes).status = .failed ∧
    (applyWrites { url := "https://example.com/v" }
      (processDownloadRun
        ⟨.error "site unsupported", allOkEnv compatInfo, "/tmp", fun _ => true⟩
        { url := "https://example.com/v" }).writes).errorMessage =
      "site unsupported" ∧
    (applyWrites { url := "https://example.com/v" }
      (processDownloadRun
        ⟨.error "site unsupported", allOkEnv compatInfo, "/tmp", fun _ => true⟩
        { url := "https://example.com/v" }).writes).outputPath = "" ∧
    (processDownloadRun
        ⟨.error "site unsupported", allOkEnv compatInfo, "/tmp", fun _ => true⟩
        { url := "https://example.com/v" }).notices =
      [("Download Failed", "Failed to download: " ++ "https://example.com/v")] ∧
    (processDownloadRun
        ⟨.error "site unsupported", allOkEnv compatInfo, "/tmp", fun _ => true⟩
        { url := "https://example.com/v" }).clipboard = none ∧
    (processDownloadRun
        ⟨.error "site unsupported", allOkEnv compatInfo, "/tmp", fun _ => true⟩
        { url := "https://example.com/v" }).effects = [] :=
  c9_dispatch_error
    ⟨.error "site unsupported", allOkEnv compatInfo, "/tmp", fun _ => true⟩
    { url := "https://example.com/v" } "site unsupported" rfl rfl rfl rfl

end SmartDownload

namespace SmartDownload

lemma append_ne_empty_right (s t : String) (h : t ≠ "") : s ++ t ≠ "" := by
  intro hc
  apply h
  have hd := congrArg String.data hc
  rw [String.data_append] at hd
  have ht : t.data = [] := (List.append_eq_nil.mp hd).2
  exact String.ext ht

lemma append_ne_empty_left (s t : String) (h : s ≠ "") : s ++ t ≠ "" := by
  intro hc
  apply h
  have hd := congrArg String.data hc
  rw [String.data_append] at hd
  have hs : s.data = [] := (List.append_eq_nil.mp hd).1
  exact String.ext hs

lemma clipOutputPath_ne_empty (i st et : String) : clipOutputPath i st et ≠ "" := by
  unfold clipOutputPath
  apply append_ne_empty_left
  apply append_ne_empty_left
  apply append_ne_empty_right
  decide

lemma convertToWhatsAppMP4_ok {env : FFEnv} {i out : String} {t : List FFEff}
    (h : ConvertToWhatsAppMP4 env i = (.ok out, t)) :
    out = trimSuffix i (filepathExt i) ++ "_whatsapp.mp4" ∧
    t = [.probeFile i, .runConvert i out] := by
  unfold ConvertToWhatsAppMP4 GetVideoInfo at h
  simp only [] at h
  rcases hpi : env.probe i with _ | info <;> rw [hpi] at h
  · simp at h
  · dsimp only [] at h
    split at h
    · simp only [Prod.mk.injEq, Except.ok.injEq] at h
      obtain ⟨rfl, rfl⟩ := h
      exact ⟨rfl, by simp⟩
    · simp at h

lemma processCompatStage_ok {env : FFEnv} {current out : String} {t2 : List FFEff}
    (h : processCompatStage env current = (.ok out, t2)) :
    out = current ∨
    out = trimSuffix current (filepathExt current) ++ "_whatsapp.mp4" := by
  unfold processCompatStage at h
  rcases hic : IsWhatsAppCompatible env current with ⟨ric, tic⟩
  rw [hic] at h
  cases ric with
  | error e => simp at h
  | ok pr =>
    obtain ⟨compatible, reason⟩ := pr
    dsimp only [] at h
    split at h
    · rcases hcw : ConvertToWhatsAppMP4 env current with ⟨rcw, tcw⟩
      rw [hcw] at h
      cases rcw with
      | error e => simp at h
      | ok wp =>
        obtain ⟨hwp, _⟩ := convertToWhatsAppMP4_ok hcw
        dsimp only [] at h
        split at h <;>
        · simp only [Prod.mk.injEq, Except.ok.injEq] at h
          exact Or.inr (h.1 ▸ hwp)
    · simp only [Prod.mk.injEq, Except.ok.injEq] at h
      exact Or.inl h.1.symm

lemma process_ok_ne_empty {f : FFmpegProcessor} {env : FFEnv}
    {inputPath : String} {opts : DownloadOptions} {out : String}
    (hne : inputPath ≠ "") (hok : (Process f env inputPath opts).1 = .ok out) :
    out ≠ "" := by
  rcases hP : Process f env inputPath opts with ⟨res, tr⟩
  rw [hP] at hok
  simp only at hok
  subst hok
  unfold Process at hP
  rcases h1 : processClipStage env inputPath opts with ⟨r1, t1⟩
  rw [h1] at hP
  cases r1 with
  | error e => simp at hP
  | ok current =>
    have hcur : current ≠ "" := by
      rcases processClipStage_ok h1 with ⟨rfl, _⟩ | ⟨rfl, _⟩
      · exact hne
      · exact clipOutputPath_ne_empty _ _ _
    dsimp only [] at hP
    by_cases hg : opts.convertToGIF = true
    · simp only [hg, if_true] at hP
      rcases h2 : processGifStage f env inputPath current
          (if opts.gifWidth > 0 then opts.gifWidth else 480) with ⟨r2, t2⟩
      rw [h2] at hP
      simp only [Prod.mk.injEq] at hP
      obtain ⟨hr, _⟩ := hP
      cases r2 with
      | error e => simp at hr
      | ok g =>
        obtain rfl : g = out := by simpa using hr
        obtain ⟨hgp, _⟩ := processGifStage_ok h2
        exact hgp ▸ append_ne_empty_right _ _ (by decide)
    · simp only [hg, if_false, Bool.false_eq_true] at hP
      rcases h2 : processCompatStage env current with ⟨r2, t2⟩
      rw [h2] at hP
      simp only [Prod.mk.injEq] at hP
      obtain ⟨hr, _⟩ := hP
      cases r2 with
      | error e => simp at hr
      | ok g =>
        obtain rfl : g = out := by simpa using hr
        rcases processCompatStage_ok h2 with rfl | rfl
        · exact hcur
        · exact append_ne_empty_right _ _ (by decide)

end SmartDownload

namespace SmartDownload

/-- C2 counterexample: the engine writes the output path BEFORE the
completed transition, so there is a reachable intermediate store state
with a non-empty output_path while the status is still downloading —
refuting "resultPath non-empty iff status done after every transition". -/
theorem c2_counterexample :
    ∃ s ∈ traceStates { url := "u" }
        (processDownloadRun
          ⟨.ok "/tmp/x.mp4", allOkEnv compatInfo, "/tmp", fun _ => true⟩
          { url := "u" }).writes,
      s.outputPath ≠ "" ∧ (s.status = .downloading ∨ s.status = .processing) := by
  refine ⟨{ url := "u", status := .downloading, outputPath := "/tmp/x.mp4" },
    by decide, by decide, Or.inl rfl⟩

/-- C2 amended: when every store write succeeds and error texts are
non-empty, both halves of the invariant hold in the FINAL state of each
worker run (output_path non-empty iff completed, error_message non-empty
iff failed); the violation is confined to the intermediate state between
the output-path write and the completed transition exhibited by the
counterexample. -/
theorem c2_final_state_invariant (o : JobOracle) (dl : Download)
    (hop : dl.outputPath = "")
    (hw : ∀ i, o.writeOk i = true)
    (hdl : ∀ p, o.downloadResult = .ok p → p ≠ "")
    (hde : ∀ e, o.downloadResult = .error e → e ≠ "") :
    ((applyWrites dl (processDownloadRun o dl).writes).outputPath ≠ "" ↔
      (applyWrites dl (processDownloadRun o dl).writes).status = .completed) ∧
    ((applyWrites dl (processDownloadRun o dl).writes).errorMessage ≠ "" ↔
      (applyWrites dl (processDownloadRun o dl).writes).status = .failed) := by
  unfold processDownloadRun
  rw [hw 0]
  rcases hd : o.downloadResult with e | p
  · have he := hde e hd
    simp [applyWrites, applyStoreWrite, hop, hw 1, he]
  · have hp := hdl p hd
    by_cases haud : dl.options.audioOnly = true
    · simp [haud, applyWrites, applyStoreWrite, hw 1, hw 2, hp]
    · simp only [haud, Bool.false_eq_true, if_false]
      by_cases hneed : (NeedsProcessingT o.env p dl.options).1 = true ∨
          dl.options.clipStart ≠ "" ∨ dl.options.convertToGIF = true
      · simp only [hneed, if_true]
        rcases hPr : Process ⟨o.tempDir⟩ o.env p dl.options with ⟨rp, tp⟩
        cases rp with
        | error e =>
          have : ("post-processing: " ++ e) ≠ "" :=
            append_ne_empty_left _ _ (by decide)
          simp [applyWrites, applyStoreWrite, hop, hw 1, hw 2, this]
        | ok pp =>
          have hpp : pp ≠ "" := process_ok_ne_empty hp (by rw [hPr])
          simp [applyWrites, applyStoreWrite, hw 1, hw 2, hw 3, hpp]
      · simp only [hneed, if_false]
        simp [applyWrites, applyStoreWrite, hw 1, hw 2, hp]

/-- Closed instance of `c2_final_state_invariant` on a concrete
successful run. -/
theorem c2_final_state_invariant_witness :
    ((applyWrites { url := "u" }
        (processDownloadRun
          ⟨.ok "/tmp/x.mp4", allOkEnv compatInfo, "/tmp", fun _ => true⟩
          { url := "u" }).writes).outputPath ≠ "" ↔
      (applyWrites { url := "u" }
        (processDownloadRun
          ⟨.ok "/tmp/x.mp4", allOkEnv compatInfo, "/tmp", fun _ => true⟩
          { url := "u" }).writes).status = .completed) ∧
    ((applyWrites { url := "u" }
        (processDownloadRun
          ⟨.ok "/tmp/x.mp4", allOkEnv compatInfo, "/tmp", fun _ => true⟩
          { url := "u" }).writes).errorMessage ≠ "" ↔
      (applyWrites { url := "u" }
        (processDownloadRun
          ⟨.ok "/tmp/x.mp4", allOkEnv compatInfo, "/tmp", fun _ => true⟩
          { url := "u" }).writes).status = .failed) :=
  c2_final_state_invariant
    ⟨.ok "/tmp/x.mp4", allOkEnv compatInfo, "/tmp", fun _ => true⟩
    { url := "u" } rfl (fun _ => rfl)
    (fun p hp => by cases hp; decide) (fun e he => by cases he)

/-- The property claim C4 asserts of every run: a failed store write is
always the last write attempted (no further store writes follow it). -/
def abortsAfterFailedWrite (ws : List WriteAttempt) : Bool :=
  ws.enum.all fun p => p.2.2 || (p.1 + 1 == ws.length)

/-- C4 counterexample: a job whose to-processing status write fails is
still processed, and the output-path and completed writes are attempted
afterwards — the run does not abort on the failed write. -/
theorem c4_counterexample :
    (processDownloadRun
        ⟨.ok "/tmp/v.mp4", allOkEnv compatInfo, "/tmp", fun i => decide (i ≠ 1)⟩
        { url := "u", options := { convertToGIF := true } }).writes =
      [(.setStatus .downloading "", true), (.setStatus .processing "", false),
       (.setOutputPath "/tmp/v.gif", true), (.setStatus .completed "", true)] ∧
    abortsAfterFailedWrite
      (processDownloadRun
        ⟨.ok "/tmp/v.mp4", allOkEnv compatInfo, "/tmp", fun i => decide (i ≠ 1)⟩
        { url := "u", options := { convertToGIF := true } }).writes = false :=
  ⟨by decide, by decide⟩

/-- C4 amended: only a failure of the FIRST transition (to downloading)
aborts the run with no further store writes, no notification and no
processing; failures of the to-processing and output-path writes are
logged and further writes are still attempted (see the counterexample),
and a failed terminal write is merely the last write of its run. -/
theorem c4_first_write_failure_aborts (o : JobOracle) (dl : Download)
    (h0 : o.writeOk 0 = false) :
    (processDownloadRun o dl).writes = [(.setStatus .downloading "", false)] ∧
    (processDownloadRun o dl).notices = [] ∧
    (processDownloadRun o dl).effects = [] ∧
    abortsAfterFailedWrite (processDownloadRun o dl).writes = true := by
  unfold processDownloadRun
  rw [h0]
  exact ⟨rfl, rfl, rfl, rfl⟩

/-- Closed instance of `c4_first_write_failure_aborts`. -/
theorem c4_first_write_failure_aborts_witness :
    (processDownloadRun
        ⟨.ok "/tmp/v.mp4", allOkEnv compatInfo, "/tmp", fun _ => false⟩
        { url := "u" }).writes = [(.setStatus .downloading "", false)] ∧
    (processDownloadRun
        ⟨.ok "/tmp/v.mp4", allOkEnv compatInfo, "/tmp", fun _ => false⟩
        { url := "u" }).notices = [] ∧
    (processDownloadRun
        ⟨.ok "/tmp/v.mp4", allOkEnv compatInfo, "/tmp", fun _ => false⟩
        { url := "u" }).effects = [] ∧
    abortsAfterFailedWrite
      (processDownloadRun
        ⟨.ok "/tmp/v.mp4", allOkEnv compatInfo, "/tmp", fun _ => false⟩
        { url := "u" }).writes = true :=
  c4_first_write_failure_aborts
    ⟨.ok "/tmp/v.mp4", allOkEnv compatInfo, "/tmp", fun _ => false⟩
    { url := "u" } rfl

end SmartDownload

namespace SmartDownload

/-- C6: the time normalizer accepts exactly the three forms — a Go
duration, a bare ParseFloat number, and H:M:S (three ":"-separated
fields: int, int, float) — and returns for each the equivalent value in
seconds (exact; the "%.3f" string rendering is representation only).
Inputs matching none of the forms yield an error, and via ClipVideo and
Process that error fails the whole job at the segment-extraction stage:
status failed with the stage-qualified message, no output path written,
and no ffmpeg run executed (no partial output). -/
theorem c6_time_normalizer :
    (∀ s : String, (∃ v, parseTimeToSeconds s = .ok v) ↔
      ((goParseDuration s).isSome = true ∨ (goParseFloat s).isSome = true ∨
       (match splitOnChar ':' s with
        | [p0, p1, p2] => (goAtoi p0).isSome = true ∧ (goAtoi p1).isSome = true ∧
            (goParseFloat p2).isSome = true
        | _ => False))) ∧
    (∀ (s : String) (q : ℚ), goParseDuration s = some q →
      parseTimeToSeconds s = .ok (.finite q)) ∧
    (∀ (s : String) (v : GoFloat), goParseDuration s = none →
      goParseFloat s = some v → parseTimeToSeconds s = .ok v) ∧
    (∀ (s p0 p1 p2 : String) (h m : ℤ) (sv : GoFloat),
      goParseDuration s = none → goParseFloat s = none →
      splitOnChar ':' s = [p0, p1, p2] →
      goAtoi p0 = some h → goAtoi p1 = some m → goParseFloat p2 = some sv →
      parseTimeToSeconds s =
        .ok (goFloatAddQ ((wrap64 (h * 3600 + m * 60) : ℤ) : ℚ) sv)) ∧
    (∀ (o : JobOracle) (dl : Download) (p e : String),
      o.downloadResult = .ok p →
      dl.options.audioOnly = false →
      dl.options.clipStart ≠ "" → dl.options.clipEnd ≠ "" →
      parseTimeToSeconds dl.options.clipStart = .error e →
      (∀ i, o.writeOk i = true) →
      (applyWrites dl (processDownloadRun o dl).writes).status = .failed ∧
      (applyWrites dl (processDownloadRun o dl).writes).outputPath =
        dl.outputPath ∧
      (applyWrites dl (processDownloadRun o dl).writes).errorMessage =
        "post-processing: clip video: invalid start time: " ++ e ∧
      (processDownloadRun o dl).effects = []) := by
  refine ⟨?_, ?_, ?_, ?_, ?_⟩
  · intro s
    rcases hD : goParseDuration s with _ | q
    · rcases hF : goParseFloat s with _ | v
      · rcases hS : splitOnChar ':' s with _ | ⟨p0, _ | ⟨p1, _ | ⟨p2, _ | ⟨p3, ps⟩⟩⟩⟩ <;>
          simp only [parseTimeToSeconds, hD, hF, hS] <;>
          try simp
        rcases h0 : goAtoi p0 with _ | h <;>
          rcases h1 : goAtoi p1 with _ | m <;>
          rcases h2 : goParseFloat p2 with _ | sv <;>
          simp [h0, h1, h2]
      · simp [parseTimeToSeconds, hD, hF]
    · simp [parseTimeToSeconds, hD]
  · intro s q h
    simp [parseTimeToSeconds, h]
  · intro s v hD hF
    simp [parseTimeToSeconds, hD, hF]
  · intro s p0 p1 p2 h m sv hD hF hS hh hm hsv
    simp [parseTimeToSeconds, hD, hF, hS, hh, hm, hsv]
  · intro o dl p e hd haud hcs hce hparse hw
    have hclip : ClipVideo o.env p dl.options.clipStart dl.options.clipEnd =
        (.error ("invalid start time: " ++ e), []) := by
      unfold ClipVideo
      rw [hparse]
    have hstage : processClipStage o.env p dl.options =
        (.error ("clip video: invalid start time: " ++ e), []) := by
      unfold processClipStage
      rw [if_pos ⟨hcs, hce⟩, hclip]
      rfl
    have hProc : Process ⟨o.tempDir⟩ o.env p dl.options =
        (.error ("clip video: invalid start time: " ++ e), []) := by
      unfold Process
      rw [hstage]
    have hNeed : NeedsProcessingT o.env p dl.options = (true, []) := by
      unfold NeedsProcessingT
      rw [if_pos (Or.inl hcs)]
    unfold processDownloadRun
    rw [hw 0, hd]
    simp only [haud, Bool.false_eq_true, if_false, hNeed, hProc]
    refine ⟨?_, ?_, ?_, ?_⟩ <;>
      simp [applyWrites, applyStoreWrite, hw 1, hw 2, ← String.append_assoc]

end SmartDownload

namespace SmartDownload

/-- Closed instance of `c6_time_normalizer`: the three scenario inputs
"1m30s", "90" and "00:01:30" all normalize to 90 seconds, and the
malformed value "abc" fails the whole job at the clipping stage. -/
theorem c6_time_normalizer_witness :
    parseTimeToSeconds "1m30s" = .ok (.finite 90) ∧
    parseTimeToSeconds "90" = .ok (.finite 90) ∧
    parseTimeToSeconds "00:01:30" = .ok (.finite 90) ∧
    (applyWrites { url := "u", options := { clipStart := "abc", clipEnd := "10" } }
      (processDownloadRun
        ⟨.ok "/tmp/x.mp4", allOkEnv compatInfo, "/tmp", fun _ => true⟩
        { url := "u", options := { clipStart := "abc", clipEnd := "10" } }).writes).status =
      .failed ∧
    (applyWrites { url := "u", options := { clipStart := "abc", clipEnd := "10" } }
      (processDownloadRun
        ⟨.ok "/tmp/x.mp4", allOkEnv compatInfo, "/tmp", fun _ => true⟩
        { url := "u", options := { clipStart := "abc", clipEnd := "10" } }).writes).outputPath =
      "" ∧
    (applyWrites { url := "u", options := { clipStart := "abc", clipEnd := "10" } }
      (processDownloadRun
        ⟨.ok "/tmp/x.mp4", allOkEnv compatInfo, "/tmp", fun _ => true⟩
        { url := "u", options := { clipStart := "abc", clipEnd := "10" } }).writes).errorMessage =
      "post-processing: clip video: invalid start time: " ++
        "invalid time format: abc (expected: 1m30s, 90, or 00:01:30)" ∧
    (processDownloadRun
        ⟨.ok "/tmp/x.mp4", allOkEnv compatInfo, "/tmp", fun _ => true⟩
        { url := "u", options := { clipStart := "abc", clipEnd := "10" } }).effects = [] := by
  have hprop := c6_time_normalizer.2.2.2.2
    ⟨.ok "/tmp/x.mp4", allOkEnv compatInfo, "/tmp", fun _ => true⟩
    { url := "u", options := { clipStart := "abc", clipEnd := "10" } }
    "/tmp/x.mp4" "invalid time format: abc (expected: 1m30s, 90, or 00:01:30)"
    rfl rfl (by decide) (by decide) (by decide) (fun _ => rfl)
  refine ⟨c6_time_normalizer.2.1 "1m30s" 90 (by decide),
    c6_time_normalizer.2.2.1 "90" (.finite 90) (by decide) (by decide),
    ?_, hprop.1, ?_, hprop.2.2.1, hprop.2.2.2⟩
  · have h3 := c6_time_normalizer.2.2.2.1 "00:01:30" "00" "01" "30" 0 1 (.finite 30)
      (by decide) (by decide) (by decide) (by decide) (by decide) (by decide)
    rw [h3]
    decide
  · have h2 := hprop.2.1
    simpa using h2

end SmartDownload

namespace SmartDownload

/-- Every attempted write in the list succeeded. -/
def allWritesOk (ws : List WriteAttempt) : Prop := ∀ w ∈ ws, w.2 = true

/-- The last write of the list sets a terminal status. -/
def lastWriteTerminal (ws : List WriteAttempt) : Prop :=
  match ws.getLast? with
  | some (.setStatus .completed _, _) => True
  | some (.setStatus .failed _, _) => True
  | _ => False

lemma run_writes_allOk (o : JobOracle) (dl : Download)
    (hw : ∀ i, o.writeOk i = true) :
    allWritesOk (processDownloadRun o dl).writes ∧
    lastWriteTerminal (processDownloadRun o dl).writes := by
  unfold processDownloadRun
  rw [hw 0]
  rcases hd : o.downloadResult with e | p
  · simp [allWritesOk, lastWriteTerminal, hw 1, List.getLast?]
  · by_cases haud : dl.options.audioOnly = true
    · simp [haud, allWritesOk, lastWriteTerminal, hw 1, hw 2, List.getLast?]
    · simp only [haud, Bool.false_eq_true, if_false]
      by_cases hneed : (NeedsProcessingT o.env p dl.options).1 = true ∨
          dl.options.clipStart ≠ "" ∨ dl.options.convertToGIF = true
      · simp only [hneed, if_true]
        rcases hPr : Process ⟨o.tempDir⟩ o.env p dl.options with ⟨rp, tp⟩
        cases rp with
        | error e =>
          simp [allWritesOk, lastWriteTerminal, hw 1, hw 2, List.getLast?]
        | ok pp =>
          simp [allWritesOk, lastWriteTerminal, hw 1, hw 2, hw 3, List.getLast?]
      · simp [hneed, allWritesOk, lastWriteTerminal, hw 1, hw 2, List.getLast?]

lemma allWritesOk_tail {w : WriteAttempt} {ws : List WriteAttempt}
    (h : allWritesOk (w :: ws)) : allWritesOk ws :=
  fun p hp => h p (List.mem_cons_of_mem _ hp)

lemma lastWriteTerminal_tail {w : WriteAttempt} {ws : List WriteAttempt}
    (h : lastWriteTerminal (w :: ws)) (hne : ws ≠ []) :
    lastWriteTerminal ws := by
  rcases ws with _ | ⟨b, l⟩
  · exact absurd rfl hne
  · unfold lastWriteTerminal at h ⊢
    rwa [List.getLast?_cons_cons] at h

lemma applyWrite_terminal {op : WriteAttempt}
    (hterm : lastWriteTerminal [op]) (d : Download) :
    IsActive (applyStoreWrite op.1 d) = false := by
  obtain ⟨w, b⟩ := op
  unfold lastWriteTerminal at hterm
  match w with
  | .setStatus st e =>
    cases st <;> simp_all [IsActive, applyStoreWrite, List.getLast?]
  | .setOutputPath p => simp [List.getLast?] at hterm

end SmartDownload

namespace SmartDownload

/-- Run-time invariant: every live worker's remaining writes are
all-successful and end in a terminal status write, and every job with
active (downloading/processing) status has a live worker with writes
still pending for it. -/
def sysInv (s : SysState) : Prop :=
  (∀ w ∈ s.workers, allWritesOk w.ops ∧ (w.ops ≠ [] → lastWriteTerminal w.ops)) ∧
  (∀ j : ℤ, IsActive (s.store j) = true →
    ∃ w ∈ s.workers, w.jobId = j ∧ w.ops ≠ [])

lemma sysInv_step {cfg : SysConfig} {s s' : SysState}
    (hall : ∀ j i, (cfg.oracle j).writeOk i = true)
    (hinv : sysInv s) (hstep : SysStep cfg s s') : sysInv s' := by
  obtain ⟨hW, hA⟩ := hinv
  cases hstep with
  | admitJob j hmem hp hs =>
    constructor
    · intro w hw
      rcases List.mem_cons.mp hw with rfl | hw'
      · have hscript := run_writes_allOk (cfg.oracle j) (s.store j) (hall j)
        exact ⟨hscript.1, fun _ => hscript.2⟩
      · exact hW w hw'
    · intro j' hj'
      obtain ⟨w, hwmem, hid, hne⟩ := hA j' hj'
      exact ⟨w, List.mem_cons_of_mem _ hwmem, hid, hne⟩
  | work w₁ w₂ j op rest hw =>
    have hmid : (⟨j, op :: rest⟩ : Worker) ∈ s.workers := by
      rw [hw]; exact List.mem_append_right _ (List.mem_cons_self _ _)
    obtain ⟨hmidOk, hmidTerm⟩ := hW _ hmid
    have hopok : op.2 = true := hmidOk op (List.mem_cons_self _ _)
    constructor
    · intro w hw'
      rcases List.mem_append.mp hw' with h | h
      · exact hW w (by rw [hw]; exact List.mem_append_left _ h)
      · rcases List.mem_cons.mp h with rfl | h
        · exact ⟨allWritesOk_tail hmidOk,
            fun hne => lastWriteTerminal_tail (hmidTerm (by simp)) hne⟩
        · exact hW w (by
            rw [hw]; exact List.mem_append_right _ (List.mem_cons_of_mem _ h))
    · intro j' hj'
      by_cases hjj : j' = j
      · subst hjj
        by_cases hre : rest = []
        · subst hre
          exfalso
          have hterm : lastWriteTerminal [op] := hmidTerm (by simp)
          have hfalse : IsActive (applyStoreWrite op.1 (s.store j')) = false :=
            applyWrite_terminal hterm _
          simp only [setJob, if_pos rfl, hopok, if_true] at hj'
          rw [hfalse] at hj'
          exact Bool.false_ne_true hj'
        · exact ⟨⟨j', rest⟩,
            List.mem_append_right _ (List.mem_cons_self _ _), rfl, hre⟩
      · have hj'' : IsActive (s.store j') = true := by
          simpa [setJob, hjj] using hj'
        obtain ⟨w, hwmem, hid, hne⟩ := hA j' hj''
        rw [hw] at hwmem
        rcases List.mem_append.mp hwmem with h | h
        · exact ⟨w, List.mem_append_left _ h, hid, hne⟩
        · rcases List.mem_cons.mp h with rfl | h
          · exact absurd hid (by simpa using Ne.symm hjj)
          · exact ⟨w, List.mem_append_right _ (List.mem_cons_of_mem _ h), hid, hne⟩
  | finish w₁ w₂ j hw =>
    constructor
    · intro w hw'
      rcases List.mem_append.mp hw' with h | h
      · exact hW w (by rw [hw]; exact List.mem_append_left _ h)
      · exact hW w (by
          rw [hw]; exact List.mem_append_right _ (List.mem_cons_of_mem _ h))
    · intro j' hj'
      obtain ⟨w, hwmem, hid, hne⟩ := hA j' hj'
      rw [hw] at hwmem
      rcases List.mem_append.mp hwmem with h | h
      · exact ⟨w, List.mem_append_left _ h, hid, hne⟩
      · rcases List.mem_cons.mp h with rfl | h
        · exact absurd rfl hne
        · exact ⟨w, List.mem_append_right _ h, hid, hne⟩

lemma sysInv_reachable {cfg : SysConfig} {s0 s : SysState}
    (hall : ∀ j i, (cfg.oracle j).writeOk i = true)
    (h0 : sysInv s0) (h : Reachable cfg s0 s) : sysInv s := by
  induction h with
  | refl => exact h0
  | tail _ hstep ih => exact sysInv_step hall ih hstep

/-- Semaphore invariant: the live workers and held slots agree, and the
slot count never exceeds the pool size. -/
def slotsInv (cfg : SysConfig) (s : SysState) : Prop :=
  s.workers.length = s.slots ∧ s.slots ≤ cfg.n

lemma slotsInv_step {cfg : SysConfig} {s s' : SysState}
    (hinv : slotsInv cfg s) (hstep : SysStep cfg s s') : slotsInv cfg s' := by
  obtain ⟨hl, hn⟩ := hinv
  cases hstep with
  | admitJob j hmem hp hs =>
    refine ⟨by simp [hl], ?_⟩
    show s.slots + 1 ≤ cfg.n
    omega
  | work w₁ w₂ j op rest hw =>
    refine ⟨?_, hn⟩
    rw [hw] at hl
    simpa using hl
  | finish w₁ w₂ j hw =>
    rw [hw] at hl
    simp only [List.length_append, List.length_cons] at hl
    constructor
    · show (w₁ ++ w₂).length = s.slots - 1
      simp only [List.length_append]
      omega
    · show s.slots - 1 ≤ cfg.n
      omega

lemma slotsInv_reachable {cfg : SysConfig} {s0 s : SysState}
    (h0 : slotsInv cfg s0) (h : Reachable cfg s0 s) : slotsInv cfg s := by
  induction h with
  | refl => exact h0
  | tail _ hstep ih => exact slotsInv_step ih hstep

lemma activeCount_le_workers (cfg : SysConfig) (s : SysState)
    (hnd : cfg.ids.Nodup)
    (hA : ∀ j : ℤ, IsActive (s.store j) = true →
      ∃ w ∈ s.workers, w.jobId = j ∧ w.ops ≠ []) :
    activeCount cfg s ≤ s.workers.length := by
  have hsub : (cfg.ids.filter fun j => IsActive (s.store j)) ⊆
      s.workers.map Worker.jobId := by
    intro j hj
    have hj2 := List.mem_filter.mp hj
    obtain ⟨w, hwmem, hid, _⟩ := hA j hj2.2
    exact hid ▸ List.mem_map_of_mem _ hwmem
  calc (cfg.ids.filter fun j => IsActive (s.store j)).length
      = (cfg.ids.filter fun j => IsActive (s.store j)).toFinset.card :=
        (List.toFinset_card_of_nodup (hnd.filter _)).symm
    _ ≤ (s.workers.map Worker.jobId).toFinset.card :=
        Finset.card_le_card fun x hx =>
          List.mem_toFinset.mpr (hsub (List.mem_toFinset.mp hx))
    _ ≤ (s.workers.map Worker.jobId).length := List.toFinset_card_le _
    _ = s.workers.length := List.length_map ..

end SmartDownload

namespace SmartDownload

/-- C3 amended: in EVERY reachable state, unconditionally, the live
workers equal the held slots and the slots never exceed the pool size N;
and PROVIDED every store write succeeds (with jobs starting out of the
active statuses and distinct ids), the number of jobs in downloading or
processing status also never exceeds N.  (Without that proviso the
second bound fails: a job whose terminal write fails stays in an active
status with no worker — see the counterexample.) -/
theorem c3_worker_pool_bound (cfg : SysConfig) (jobs0 : ℤ → Download)
    (s : SysState) (h : Reachable cfg (initState jobs0) s) :
    (s.workers.length = s.slots ∧ s.slots ≤ cfg.n) ∧
    ((∀ j i, (cfg.oracle j).writeOk i = true) →
      (∀ j, IsActive (jobs0 j) = false) →
      cfg.ids.Nodup →
      activeCount cfg s ≤ cfg.n) := by
  have hs : slotsInv cfg s :=
    slotsInv_reachable ⟨rfl, Nat.zero_le _⟩ h
  refine ⟨hs, ?_⟩
  intro hall hinit hnd
  have hi : sysInv s := by
    refine sysInv_reachable hall ⟨?_, ?_⟩ h
    · intro w hw
      exact absurd hw (List.not_mem_nil w)
    · intro j hj
      have hjj : IsActive (jobs0 j) = true := hj
      rw [hinit j] at hjj
      exact absurd hjj (by simp)
  calc activeCount cfg s ≤ s.workers.length := activeCount_le_workers cfg s hnd hi.2
    _ = s.slots := hs.1
    _ ≤ cfg.n := hs.2

/-- Pool of size 2 whose single job's writes all succeed, for the C3
witness. -/
def c3wcfg : SysConfig :=
  ⟨2, fun _ => ⟨.ok "/tmp/a.mp4", allOkEnv compatInfo, "/tmp", fun _ => true⟩, [1]⟩

/-- Initial store for the C3 witness: the job is pending, audio-only. -/
def c3wjobs0 : ℤ → Download :=
  fun _ => { url := "u", options := { audioOnly := true } }

/-- A non-initial reachable state for the C3 witness: job 1 admitted and
its downloading write applied (one worker, one held slot, one active
job). -/
def c3wstate : SysState :=
  ⟨setJob c3wjobs0 1 (applyStoreWrite (.setStatus .downloading "") (c3wjobs0 1)),
   [⟨1, [(.setOutputPath "/tmp/a.mp4", true), (.setStatus .completed "", true)]⟩], 1⟩

/-- Closed instance of `c3_worker_pool_bound` at the reachable state
`c3wstate` (one admission step and one write step beyond the initial
state), with every hypothesis discharged: both the unconditional slot
half and the proviso-guarded active-count half. -/
theorem c3_worker_pool_bound_witness :
    (c3wstate.workers.length = c3wstate.slots ∧ c3wstate.slots ≤ c3wcfg.n) ∧
    activeCount c3wcfg c3wstate ≤ c3wcfg.n :=
  have hreach : Reachable c3wcfg (initState c3wjobs0) c3wstate :=
    Relation.ReflTransGen.head
      (SysStep.admitJob _ 1 (by decide) rfl (by decide))
      (Relation.ReflTransGen.head
        (SysStep.work _ [] [] 1 (.setStatus .downloading "", true)
          [(.setOutputPath "/tmp/a.mp4", true), (.setStatus .completed "", true)] rfl)
        Relation.ReflTransGen.refl)
  ⟨(c3_worker_pool_bound c3wcfg c3wjobs0 c3wstate hreach).1,
   (c3_worker_pool_bound c3wcfg c3wjobs0 c3wstate hreach).2
     (fun _ _ => rfl) (fun _ => rfl) (by decide)⟩

/-- Per-job oracles for the C3 counterexample: audio-only downloads; job
1's terminal (completed) store write fails, job 2's writes all succeed. -/
def c3oracle (j : ℤ) : JobOracle :=
  ⟨.ok "/tmp/a.mp3", allOkEnv compatInfo, "/tmp",
    fun i => if j = 1 then decide (i ≠ 2) else true⟩

/-- Pool size 1, two jobs. -/
def c3cfg : SysConfig := ⟨1, c3oracle, [1, 2]⟩

/-- Both jobs start pending, audio-only. -/
def c3jobs0 : ℤ → Download :=
  fun _ => { url := "u", options := { audioOnly := true } }

/-- C3 counterexample: with pool size N = 1, a reachable state has 2 jobs
in downloading status — job 1's completed write failed, so it remains
stuck in downloading after its worker released the slot, and job 2 is
then admitted.  The claim's bound on active-status jobs is false. -/
theorem c3_counterexample :
    ∃ s, Reachable c3cfg (initState c3jobs0) s ∧
      c3cfg.n < activeCount c3cfg s := by
  refine ⟨_, Relation.ReflTransGen.head
      (SysStep.admitJob _ 1 (by decide) rfl (by decide))
      (Relation.ReflTransGen.head
        (SysStep.work _ [] [] 1 (.setStatus .downloading "", true)
          [(.setOutputPath "/tmp/a.mp3", true), (.setStatus .completed "", false)] rfl)
        (Relation.ReflTransGen.head
          (SysStep.work _ [] [] 1 (.setOutputPath "/tmp/a.mp3", true)
            [(.setStatus .completed "", false)] rfl)
          (Relation.ReflTransGen.head
            (SysStep.work _ [] [] 1 (.setStatus .completed "", false) [] rfl)
            (Relation.ReflTransGen.head
              (SysStep.finish _ [] [] 1 rfl)
              (Relation.ReflTransGen.head
                (SysStep.admitJob _ 2 (by decide) rfl (by decide))
                (Relation.ReflTransGen.head
                  (SysStep.work _ [] [] 2 (.setStatus .downloading "", true)
                    [(.setOutputPath "/tmp/a.mp3", true),
                     (.setStatus .completed "", true)] rfl)
                  Relation.ReflTransGen.refl)))))), ?_⟩
  decide

end SmartDownload
